import Mathlib

set_option maxRecDepth 20000

/-!
Verification development for the schema-driven type generator in
`packages/generator/src/index.ts`.

Strings are embedded as `List Char` (`Str`), so that every operation is a
structurally recursive, kernel-computable function.  The JS string primitives
used by the generator (`split`, `replace` (first occurrence), `startsWith`,
`endsWith`, `includes`, `charAt(0)` case test) are re-implemented below with
their JS semantics.  Functions of the generator keep their source names.

The generator's module-level mutable state (`fhirTypes`, `fhirTypesMap`,
`valueSets`) is made explicit: the value-set corpus travels in a `GenCtx`, and
the accumulated type-node list is threaded through `runGeneration`.  Recursion
that the source performs on data that could make it diverge (value-set
expansion through the corpus, which has no cycle guard, and the nested
sub-type walk) takes an explicit fuel argument; fuel at least the data's
depth reproduces the source behaviour exactly.
-/

abbrev Str := List Char

/-- Chars of a string literal, the `Str` view of a literal. -/
def str (s : String) : Str := s.data

/-- The single-quote character, kept abstract as its code point. -/
def qChar : Char := Char.ofNat 39

/-- The string `'` used to build literal union types. -/
def q : Str := [qChar]

/-- The separator `' | '` that joins two quoted literals in a union type. -/
def qSep : Str := q ++ str " | " ++ q

/-- JS `String.prototype.split(sep)` for a non-empty separator, by fuel
    (fuel = length of the subject string always suffices). -/
def jsSplitFuel (pat : Str) : Nat → Str → List Str
  | 0, rest => [rest]
  | n + 1, s =>
      match s with
      | [] => [[]]
      | x :: rest =>
          if pat ≠ [] ∧ pat.isPrefixOf s then
            [] :: jsSplitFuel pat n (s.drop pat.length)
          else
            match jsSplitFuel pat n rest with
            | [] => [[x]]
            | t :: ts => (x :: t) :: ts

/-- JS `String.prototype.split(sep)`: `"".split(sep) = [""]`, and a string
    with no separator occurrence yields a one-element list. -/
def jsSplit (pat : Str) (s : Str) : List Str := jsSplitFuel pat s.length s

/-- JS `String.prototype.replace(pat, '')` with a plain-string pattern:
    removes only the first occurrence; unchanged when `pat` does not occur. -/
def jsReplaceFirst (pat : Str) : Str → Str
  | [] => []
  | c :: rest =>
      if pat ≠ [] ∧ pat.isPrefixOf (c :: rest) then (c :: rest).drop pat.length
      else c :: jsReplaceFirst pat rest

/-- JS `String.prototype.includes(pat)`. -/
def jsIncludes (pat : Str) : Str → Bool
  | [] => pat == ([] : Str)
  | c :: rest => pat.isPrefixOf (c :: rest) || jsIncludes pat rest

/-- Modelled from the spec: `capitalize` is imported from the @medplum/core
    package, which is not under the given sources; the spec says a derived
    name concatenates each path segment "with its first letter capitalized". -/
def capitalize : Str → Str
  | [] => []
  | c :: rest => c.toUpper :: rest

/-- Source `isLowerCase` (index.ts:485-487) as applied to `charAt(0)`:
    `charAt` of an empty string is `""` and `"" === "".toLowerCase()`,
    so an empty string counts as lower-case. -/
def isLowerCaseFirst : Str → Bool
  | [] => true
  | c :: _ => c.toLower == c

/-- JS `s.split('/').pop()`: `split` always yields a non-empty array. -/
def lastSegmentAfterSlash (s : Str) : Str := (jsSplit (str "/") s).getLastD []

/-- Everything after the first occurrence of `c` (empty when `c` is absent);
    models `substring(indexOf(c) + 1, ...)` on the well-formed inputs the
    generator produces (the `<` of `Reference<...>` is always present). -/
def dropThroughChar (c : Char) : Str → Str
  | [] => []
  | x :: r => if x == c then r else dropThroughChar c r

/-- Everything before the first occurrence of `c` (all of it when absent);
    models `substring(..., indexOf(c))` on the generator's inputs, where the
    closing `>` of `Reference<...>` always exists. -/
def takeUntilChar (c : Char) : Str → Str
  | [] => []
  | x :: r => if x == c then [] else x :: takeUntilChar c r

/-! ## Data model (the fragments of @medplum/fhirtypes the generator reads) -/

/-- One entry of `ElementDefinition.type`: a type code plus the optional
    target profiles of a Reference type. -/
structure EDType where
  code : Str
  targetProfile : List Str := []
deriving DecidableEq

/-- `ElementDefinition.binding`. -/
structure EDBinding where
  valueSet : Option Str := none
  strength : Option Str := none
deriving DecidableEq

/-- The fields of `ElementDefinition` the generator reads. -/
structure ElementDef where
  type : List EDType := []
  contentReference : Option Str := none
  max : Option Str := none
  binding : Option EDBinding := none
deriving DecidableEq

/-- Source interface `Property` (index.ts:18-22). -/
structure Property where
  resourceType : Str
  name : Str
  definition : ElementDef
deriving DecidableEq

/-- The fields of a normalized `TypeSchema` entry the generator reads. -/
structure TypeSchema where
  properties : Option (List (Str × ElementDef)) := none
  parentType : Option Str := none
deriving DecidableEq

/-- Source interface `FhirType` (index.ts:24-33).  `subTypes` is not stored:
    the nesting pass (index.ts:69-73) pushes every node whose `parentType`
    is `N` into the node registered under `N`, so the children of a node are
    exactly `childrenOf` of the accumulated node list, computed below. -/
structure FhirType where
  inputName : Str
  parentType : Option Str
  outputName : Str
  properties : List Property
  resource : Bool
  domainResource : Bool
deriving DecidableEq

/-- A `ValueSet.compose.include[i].concept[j]` entry. -/
structure VSConceptRef where
  code : Option Str := none
deriving DecidableEq

/-- A `ValueSet.compose.include[i]` entry. -/
structure VSInclude where
  concept : Option (List VSConceptRef) := none
  system : Option Str := none
deriving DecidableEq

/-- `ValueSet.compose`; the source field is named `include`, a Lean keyword,
    so it is called `includeList` here. -/
structure VSCompose where
  includeList : Option (List VSInclude) := none
deriving DecidableEq

/-- A `CodeSystem.concept` node: a code and nested child concepts. -/
inductive CSConcept where
  | mk (code : Option Str) (concept : Option (List CSConcept))

/-- A resource stored in the `valueSets` map: a `ValueSet` or a `CodeSystem`
    (index.ts:39, 46-52). -/
inductive VSResource where
  | valueSet (compose : Option VSCompose)
  | codeSystem (concept : Option (List CSConcept))

/-- The generator's ambient context: the `valueSets` map (index.ts:39) as a
    lookup function, and the fuel bounding value-set recursion (the source
    has no cycle guard; fuel at least the reference depth is exact). -/
structure GenCtx where
  valueSets : Str → Option VSResource
  vsFuel : Nat

/-! ## Value-Set Resolver (index.ts:418-474) -/

/-- JS truthiness of an optional code: `if (concept.code)` rejects both an
    absent and an empty code. -/
def truthyCode : Option Str → List Str
  | none => []
  | some c => if c = [] then [] else [c]

/-- Source `buildCodeSystemConceptValues` (index.ts:463-474): depth-first,
    each node's code before its children, in declaration order.  Fuel bounds
    the nesting depth of the concept tree. -/
def buildCodeSystemConceptValues : Nat → Option (List CSConcept) → List Str
  | 0, _ => []
  | _ + 1, none => []
  | n + 1, some cs =>
      cs.flatMap fun c =>
        match c with
        | CSConcept.mk code sub => truthyCode code ++ buildCodeSystemConceptValues n sub

/-- Source `buildValueSetValues` / `buildValueSetComposeValues` /
    `getValueSetValues` (index.ts:418-461), with the accumulator array made
    into a return value.  A version suffix (`|`-delimited) is stripped before
    lookup; an unknown URL yields `[]`; a compose rule with a `concept`
    array (even an empty one — JS truthiness) contributes its listed codes,
    otherwise a truthy `system` is resolved recursively and appended.  No
    deduplication anywhere.  Fuel bounds the recursion through the corpus,
    which the source does not guard against cycles. -/
def getValueSetValuesF (vs : Str → Option VSResource) : Nat → Str → List Str
  | 0, _ => []
  | n + 1, url =>
      let u := if url.contains '|' then (jsSplit (str "|") url).headD [] else url
      match vs u with
      | none => []
      | some (VSResource.valueSet compose) =>
          match compose with
          | none => []
          | some c =>
              match c.includeList with
              | none => []
              | some incs =>
                  incs.flatMap fun inc =>
                    match inc.concept with
                    | some refs => refs.flatMap fun r => truthyCode r.code
                    | none =>
                        match inc.system with
                        | some s => if s ≠ [] then getValueSetValuesF vs n s else []
                        | none => []
      | some (VSResource.codeSystem concept) =>
          buildCodeSystemConceptValues (n + 1) concept

/-- Source `getValueSetValues` (index.ts:418-422) under a context. -/
def getValueSetValues (ctx : GenCtx) (url : Str) : List Str :=
  getValueSetValuesF ctx.valueSets ctx.vsFuel url

/-! ## Property Resolver (index.ts:283-321, 339-416) -/

/-- The twelve type codes that map to the string scalar and engage the
    required-binding substitution (index.ts:343-354). -/
def stringFlavoredCodes : List Str :=
  [str "base64Binary", str "canonical", str "code", str "id", str "markdown",
   str "oid", str "string", str "uri", str "url", str "uuid", str "xhtml",
   str "http://hl7.org/fhirpath/System.String"]

/-- The binding-sensitive part of the switch (index.ts:355-368): a
    required-strength binding with a truthy value-set URL substitutes
    `ResourceType` for the resource-types URL, is skipped for the all-types
    and defined-types URLs, and otherwise becomes a quoted literal union of
    the flattened codes when at least one code results. -/
def stringBaseType (ctx : GenCtx) (p : Property) : Str :=
  match p.definition.binding with
  | none => str "string"
  | some b =>
      match b.valueSet with
      | none => str "string"
      | some vsUrl =>
          if vsUrl ≠ [] ∧ b.strength = some (str "required") then
            if vsUrl = str "http://hl7.org/fhir/ValueSet/resource-types|4.0.1" then
              str "ResourceType"
            else if vsUrl ≠ str "http://hl7.org/fhir/ValueSet/all-types|4.0.1" ∧
                vsUrl ≠ str "http://hl7.org/fhir/ValueSet/defined-types|4.0.1" then
              let values := getValueSetValues ctx vsUrl
              if values ≠ [] then q ++ List.intercalate qSep values ++ q
              else str "string"
            else str "string"
          else str "string"

/-- The `switch` of `getTypeScriptTypeForProperty` (index.ts:342-407):
    the base type before cardinality wrapping. -/
def baseTypeForProperty (ctx : GenCtx) (p : Property) (td : EDType) : Str :=
  if td.code ∈ stringFlavoredCodes then stringBaseType ctx p
  else if td.code ∈ [str "date", str "dateTime", str "instant", str "time"] then str "string"
  else if td.code ∈ [str "decimal", str "integer", str "positiveInt", str "unsignedInt", str "number"] then
    str "number"
  else if td.code = str "ResourceList" then str "Resource"
  else if td.code = str "Element" ∨ td.code = str "BackboneElement" then
    p.resourceType ++ capitalize p.name
  else if td.code = str "Reference" then
    if td.targetProfile ≠ [] then
      str "Reference<" ++
        List.intercalate (str " | ") (td.targetProfile.map lastSegmentAfterSlash) ++ str ">"
    else str "Reference"
  else td.code

/-- Source `getTypeScriptTypeForProperty` (index.ts:339-416): the base type,
    wrapped as an array when `max` is `*`; a literal union is parenthesized
    before wrapping (index.ts:409-415). -/
def getTypeScriptTypeForProperty (ctx : GenCtx) (p : Property) (td : EDType) : Str :=
  let baseType := baseTypeForProperty ctx p td
  if p.definition.max = some (str "*") then
    if jsIncludes qSep baseType then str "(" ++ baseType ++ str ")[]"
    else baseType ++ str "[]"
  else baseType

/-- One generated field: output name and resolved type expression. -/
structure TSProp where
  name : Str
  typeName : Str
deriving DecidableEq

/-- JS truthiness of `property.definition.contentReference`
    (index.ts:296): absent or empty is falsy. -/
def crTruthy : Option Str → Option Str
  | none => none
  | some s => if s = [] then none else some s

/-- The content-reference name derivation (index.ts:297): strip the first
    `#`, split on `.`, capitalize each segment, concatenate. -/
def crDerivedName (cr : Str) : Str :=
  ((jsSplit (str ".") (jsReplaceFirst (str "#") cr)).map capitalize).flatten

/-- Source `getTypeScriptProperties` (index.ts:283-321).  The fixed generic
    carriers come first: the `resource` field of BundleEntry /
    OperationOutcome / Reference resolves to the bare parameter `T`, and
    `Bundle.entry` to `BundleEntry<T>[]` unconditionally.  A truthy content
    reference derives its name from the fragment path.  A `[x]` name expands
    per declared type alternative.  Otherwise the first declared type is
    used; when no type entry exists the source dereferences `undefined`
    (a TypeError), modelled as `none`. -/
def getTypeScriptProperties (ctx : GenCtx) (p : Property) : Option (List TSProp) :=
  if p.name = str "resource" ∧
      (p.resourceType = str "BundleEntry" ∨ p.resourceType = str "OperationOutcome" ∨
        p.resourceType = str "Reference") then
    some [⟨str "resource", str "T"⟩]
  else if p.resourceType = str "Bundle" ∧ p.name = str "entry" then
    some [⟨str "entry", str "BundleEntry<T>[]"⟩]
  else
    match crTruthy p.definition.contentReference with
    | some cr =>
        let baseName := crDerivedName cr
        some [⟨p.name,
          if p.definition.max = some (str "*") then baseName ++ str "[]" else baseName⟩]
    | none =>
        if (str "[x]").isSuffixOf p.name then
          some (p.definition.type.map fun pt =>
            ⟨jsReplaceFirst (str "[x]") p.name ++ capitalize pt.code,
             getTypeScriptTypeForProperty ctx p pt⟩)
        else
          match p.definition.type.head? with
          | none => none
          | some td => some [⟨p.name, getTypeScriptTypeForProperty ctx p td⟩]

/-! ## Import Resolver (index.ts:247-281) -/

/-- Source `cleanReferencedType` (index.ts:265-281): the bare parameter `T`
    stands for `Resource`; quoted literals, lower-case-initial scalars and
    the `BundleEntry<T>[]` form contribute nothing; a `Reference<...>` form
    contributes `Reference` plus the ` | `-separated targets between the
    angle brackets; otherwise the name with its first `[]` removed. -/
def cleanReferencedType (typeName : Str) : List Str :=
  if typeName = str "T" then [str "Resource"]
  else if typeName.head? = some qChar ∨ isLowerCaseFirst typeName ∨
      typeName = str "BundleEntry<T>[]" then []
  else if (str "Reference<").isPrefixOf typeName then
    str "Reference" :: jsSplit (str " | ") (takeUntilChar '>' (dropThroughChar '<' typeName))
  else [jsReplaceFirst (str "[]") typeName]

/-- The nodes whose `parentType` names `name` — the sub-types pushed into a
    node by the nesting pass (index.ts:69-73). -/
def childrenOf (nodes : List FhirType) (name : Str) : List FhirType :=
  nodes.filter fun t => t.parentType == some name

/-- Source `buildImports` (index.ts:247-263), walking a node and its nested
    children: the first component collects the names defined inside the unit
    (`includedTypes`), the second the referenced names (`referencedTypes`).
    A node named `Reference` always references `Resource`.  `none` models the
    TypeError a property without any declared type raises.  Fuel bounds the
    sub-type nesting depth. -/
def buildImportsF (ctx : GenCtx) (nodes : List FhirType) : Nat → FhirType → Option (List Str × List Str)
  | 0, _ => some ([], [])
  | fuel + 1, t =>
      match t.properties.mapM fun p => getTypeScriptProperties ctx p with
      | none => none
      | some fieldLists =>
          let own := fieldLists.flatten.flatMap fun f => cleanReferencedType f.typeName
          match (childrenOf nodes t.outputName).mapM fun c => buildImportsF ctx nodes fuel c with
          | none => none
          | some subResults =>
              some (t.outputName :: (subResults.map Prod.fst).flatten,
                own ++ (subResults.map Prod.snd).flatten ++
                  (if t.outputName = str "Reference" then [str "Resource"] else []))

/-- Lexicographic sort on names, the model of JS `Array.prototype.sort()`
    (code-unit order; all generated names are ASCII). -/
def sortStr (l : List Str) : List Str :=
  List.insertionSort (fun a b : Str => a ≤ b) l

/-- The sorted import list of one emission unit (index.ts:188-192): the
    referenced set, sorted, minus the names defined inside the unit. -/
def unitImports (ctx : GenCtx) (nodes : List FhirType) (fuel : Nat) (t : FhirType) : Option (List Str) :=
  match buildImportsF ctx nodes fuel t with
  | none => none
  | some (inc, ref) => some ((sortStr ref.dedup).filter fun n => !(inc.contains n))

/-! ## Emitter (index.ts:139-245) -/

/-- One rendered `export interface` declaration, structurally: its name, the
    generic clause text (empty for non-generic types), and its fields in
    order — the `readonly resourceType` discriminant first when the type is
    resource-classified, then the resolved property fields, then the extra
    `resource?: T` field of the `Reference` type. -/
structure TSDecl where
  name : Str
  genericClause : Str
  fields : List TSProp
deriving DecidableEq

/-- The fixed generic-carrier owners (index.ts:204). -/
def genericTypes : List Str := [str "Bundle", str "BundleEntry", str "Reference"]

/-- Sort nodes by output name — the sub-type sort of index.ts:232. -/
def sortTypesByName (l : List FhirType) : List FhirType :=
  List.insertionSort (fun a b : FhirType => a.outputName ≤ b.outputName) l

/-- Source `writeInterface` (index.ts:198-237): nothing is rendered (children
    included) when the node has no properties; otherwise the node's
    declaration followed by its children's, children sorted by name.  Fuel
    bounds the nesting depth. -/
def renderDeclsF (ctx : GenCtx) (nodes : List FhirType) : Nat → FhirType → Option (List TSDecl)
  | 0, _ => some []
  | fuel + 1, t =>
      if t.properties = [] then some []
      else
        match t.properties.mapM fun p => getTypeScriptProperties ctx p with
        | none => none
        | some fieldLists =>
            let decl : TSDecl :=
              { name := t.outputName
                genericClause :=
                  if genericTypes.contains t.outputName then str "<T extends Resource = Resource>"
                  else []
                fields :=
                  (if t.resource then [⟨str "resourceType", q ++ t.outputName ++ q⟩] else []) ++
                  fieldLists.flatten ++
                  (if t.outputName = str "Reference" then [⟨str "resource", str "T"⟩] else []) }
            match (sortTypesByName (childrenOf nodes t.outputName)).mapM
                fun c => renderDeclsF ctx nodes fuel c with
            | none => none
            | some subDecls => some (decl :: subDecls.flatten)

/-- One written interface file (index.ts:178-196): name, sorted imports,
    rendered declarations. -/
structure OutputUnit where
  fileName : Str
  imports : List Str
  decls : List TSDecl
deriving DecidableEq

/-- Source `writeInterfaceFile` (index.ts:178-196): skipped (inner `none`)
    when the node has neither properties nor sub-types; outer `none` models
    the property-resolution TypeError. -/
def writeInterfaceFileF (ctx : GenCtx) (nodes : List FhirType) (fuel : Nat) (t : FhirType) :
    Option (Option OutputUnit) :=
  if t.properties = [] ∧ childrenOf nodes t.outputName = [] then some none
  else
    match unitImports ctx nodes fuel t, renderDeclsF ctx nodes fuel t with
    | some imps, some ds => some (some ⟨t.outputName, imps, ds⟩)
    | _, _ => none

/-! ## Main pipeline (index.ts:41-85, 105-176) -/

/-- Source `containsAll` (index.ts:476-483). -/
def containsAll (names : List Str) (values : List Str) : Bool :=
  values.all fun v => names.contains v

/-- The base-resource marker fields (index.ts:35). -/
def baseResourceProperties : List Str :=
  [str "id", str "meta", str "implicitRules", str "language"]

/-- The domain-resource marker fields (index.ts:36). -/
def domainResourceProperties : List Str :=
  [str "text", str "contained", str "extension", str "modifierExtension"]

/-- Source `buildType` (index.ts:105-137): `undefined` properties abort with
    `undefined` (an empty property map is truthy and proceeds); properties
    whose name starts with `_` are skipped before anything else; the
    classification flags check the kept property names against the two
    marker sets. -/
def buildType (resourceType : Str) (definition : TypeSchema) : Option FhirType :=
  match definition.properties with
  | none => none
  | some props =>
      let kept := props.filter fun e => e.1.head? != some '_'
      some
        { inputName := resourceType
          parentType := definition.parentType
          outputName := resourceType
          properties := kept.map fun e => ⟨resourceType, e.1, e.2⟩
          resource := containsAll (kept.map fun e => e.1) baseResourceProperties
          domainResource := containsAll (kept.map fun e => e.1) domainResourceProperties }

/-- The node-building loop of `main` (index.ts:54-60) over a schema index. -/
def buildAllTypes (schema : List (Str × TypeSchema)) : List FhirType :=
  schema.filterMap fun e => buildType e.1 e.2

/-- Keep the first occurrence of every name — JS object key order. -/
def dedupKeepFirstAux (seen : List Str) : List Str → List Str
  | [] => []
  | a :: rest =>
      if seen.contains a then dedupKeepFirstAux seen rest
      else a :: dedupKeepFirstAux (a :: seen) rest

/-- JS `Object.keys` order for sequential assignments: first occurrence. -/
def dedupKeepFirst (l : List Str) : List Str := dedupKeepFirstAux [] l

/-- The value a JS object holds after sequential assignments: the last one. -/
def lastValueFor (entries : List FhirType) (name : Str) : Option FhirType :=
  entries.reverse.find? fun t => t.outputName == name

/-- The `parentTypes` record of `main` (index.ts:62-67): nodes without a
    parent, keyed by output name — key order is first occurrence, the held
    node is the last assigned. -/
def parentTypeEntries (allNodes : List FhirType) : List FhirType :=
  let tops := allNodes.filter fun t => t.parentType == none
  (dedupKeepFirst (tops.map fun t => t.outputName)).filterMap fun n => lastValueFor tops n

/-- The two aliased duplicate names excluded from the index (index.ts:142). -/
def aliasExcluded (n : Str) : Bool :=
  n == str "MoneyQuantity" || n == str "SimpleQuantity"

/-- Source `writeIndexFile` (index.ts:139-148): the given names plus the two
    synthesized names, sorted, minus the two aliased duplicates. -/
def writeIndexExports (names : List Str) : List Str :=
  (sortStr (names ++ [str "Resource", str "ResourceType"])).filter fun n => !(aliasExcluded n)

/-- The export list `main` passes to `writeIndexFile` (index.ts:76). -/
def mainIndexExports (allNodes : List FhirType) : List Str :=
  writeIndexExports (sortStr ((parentTypeEntries allNodes).map fun t => t.outputName))

/-- The disjunct list `main` passes to `writeResourceFile` (index.ts:77-82):
    record-classified top-level names, sorted. -/
def mainResourceUnion (allNodes : List FhirType) : List Str :=
  sortStr (((parentTypeEntries allNodes).filter fun t => t.resource).map fun t => t.outputName)

/-- The artifacts of one generation run, structurally: the index export
    list, the `Resource` union disjunct list, and the interface files. -/
structure GenOutputs where
  indexExports : List Str
  resourceUnion : List Str
  interfaceFiles : List OutputUnit
deriving DecidableEq

/-- One execution of `main`'s generation core (index.ts:54-85) given the
    module-level accumulator `fhirTypes` it starts from (`st`): the new nodes
    are appended to the accumulator, `parentTypes` and the nesting pass run
    over the whole accumulated list, and the outputs are rendered.  Returns
    the outputs (or `none` on a property-resolution TypeError) and the
    accumulator as the run leaves it. -/
def runGeneration (ctx : GenCtx) (fuel : Nat) (schema : List (Str × TypeSchema))
    (st : List FhirType) : Option GenOutputs × List FhirType :=
  let allNodes := st ++ buildAllTypes schema
  let parents := parentTypeEntries allNodes
  match parents.mapM fun t => writeInterfaceFileF ctx allNodes fuel t with
  | none => (none, allNodes)
  | some files =>
      (some
        { indexExports := mainIndexExports allNodes
          resourceUnion := mainResourceUnion allNodes
          interfaceFiles := files.filterMap id }, allNodes)

/-! ## Spec-side formulations and auxiliary predicates -/

/-- The top-level nodes of a schema index: the built nodes without a parent
    (spec §4.2 step 5). -/
def topLevelTypes (schema : List (Str × TypeSchema)) : List FhirType :=
  (buildAllTypes schema).filter fun t => t.parentType == none

/-- The spec's description of the index export list (spec §8 "Aggregate
    completeness"): the set of all top-level type names plus the two
    synthesized names, minus the two aliased duplicates, sorted. -/
def specIndexExports (schema : List (Str × TypeSchema)) : List Str :=
  sortStr (((topLevelTypes schema).map (fun t => t.outputName) ++
    [str "Resource", str "ResourceType"]).filter fun n => !(aliasExcluded n))

/-- The spec's description of the `Resource` union disjunct list: the
    record-classified top-level type names in sorted order. -/
def specResourceUnion (schema : List (Str × TypeSchema)) : List Str :=
  ((sortTypesByName (topLevelTypes schema)).filter fun t => t.resource).map fun t => t.outputName

/-- The outputs of a generation run as a function of the schema index alone,
    with no accumulator argument: the spec-side description of one run. -/
def specOutputs (ctx : GenCtx) (fuel : Nat) (schema : List (Str × TypeSchema)) :
    Option GenOutputs :=
  let nodes := buildAllTypes schema
  match (parentTypeEntries nodes).mapM fun t => writeInterfaceFileF ctx nodes fuel t with
  | none => none
  | some files =>
      some
        { indexExports := mainIndexExports nodes
          resourceUnion := mainResourceUnion nodes
          interfaceFiles := files.filterMap id }

/-- A resolved type expression is a sequence wrapper: it is some expression
    with `[]` appended. -/
def SeqWrap (s : Str) : Prop := ∃ b : Str, s = b ++ str "[]"

/-- The schema entry with its underscore-prefixed properties removed. -/
def stripUnderscoreProps (d : TypeSchema) : TypeSchema :=
  { d with properties := d.properties.map fun props => props.filter fun e => e.1.head? != some '_' }

/-- Well-formedness for the cardinality claim: none of the names a base type
    can end with terminates in `]` — the derived content-reference name, the
    owner-plus-field synthesized name, and every declared type code.  (The
    schema corpus satisfies this: all its names are bracket-free.) -/
def noBracketEnd (p : Property) : Prop :=
  (∀ cr ∈ (crTruthy p.definition.contentReference).toList,
    (crDerivedName cr).getLast? ≠ some ']') ∧
  (p.resourceType ++ capitalize p.name).getLast? ≠ some ']' ∧
  ∀ td ∈ p.definition.type, td.code.getLast? ≠ some ']'

/-- Well-formedness for the import claim: a property either is one of the
    fixed generic-carrier pairs (whose parameter tokens the theorem handles),
    or none of its resolved field types cleans to the bare parameter name
    `T` — i.e. the schema does not itself use `T` as a type name.  (The
    schema corpus satisfies this.) -/
def propNoTLeak (ctx : GenCtx) (p : Property) : Prop :=
  (p.name = str "resource" ∧
    (p.resourceType = str "BundleEntry" ∨ p.resourceType = str "OperationOutcome" ∨
      p.resourceType = str "Reference")) ∨
  (p.resourceType = str "Bundle" ∧ p.name = str "entry") ∨
  ∀ fs ∈ (getTypeScriptProperties ctx p).toList, ∀ f ∈ fs,
    str "T" ∉ cleanReferencedType f.typeName

/-- `propNoTLeak` for every property of a node. -/
def nodeNoTLeak (ctx : GenCtx) (n : FhirType) : Prop :=
  ∀ p ∈ n.properties, propNoTLeak ctx p

/-! ## Concrete instances used by the claim theorems -/

/-- A context whose value-set corpus is empty. -/
def emptyCtx : GenCtx := ⟨fun _ => none, 0⟩

/-- A value-set corpus with one composed enumeration whose overlapping
    inclusion rules flatten to the duplicated sequence `[a, b, a]`. -/
def corpusOverlap : Str → Option VSResource := fun u =>
  if u = str "http://example.org/vs/overlap" then
    some (VSResource.valueSet (some
      { includeList := some
          [{ concept := some [{ code := some (str "a") }, { code := some (str "b") }] },
           { concept := some [{ code := some (str "a") }] }] }))
  else none

/-- A corpus in which the resource-types enumeration flattens to `[a,b,c]`. -/
def corpusResourceTypes : Str → Option VSResource := fun u =>
  if u = str "http://hl7.org/fhir/ValueSet/resource-types" then
    some (VSResource.codeSystem (some
      [CSConcept.mk (some (str "a")) none,
       CSConcept.mk (some (str "b")) none,
       CSConcept.mk (some (str "c")) none]))
  else none

/-- A required-bound code property referencing the overlapping enumeration. -/
def propKindOverlap : Property :=
  ⟨str "Foo", str "kind",
    { type := [⟨str "code", []⟩], max := some (str "1"),
      binding := some
        { valueSet := some (str "http://example.org/vs/overlap"),
          strength := some (str "required") } }⟩

/-- A required-bound code property referencing the resource-types URL. -/
def propKindResourceTypes : Property :=
  ⟨str "Foo", str "kind",
    { type := [⟨str "code", []⟩], max := some (str "1"),
      binding := some
        { valueSet := some (str "http://hl7.org/fhir/ValueSet/resource-types|4.0.1"),
          strength := some (str "required") } }⟩

/-- A property whose content reference `#` has an empty fragment path —
    it matches no naming convention. -/
def propContentRefHash : Property :=
  ⟨str "Foo", str "bad", { contentReference := some (str "#"), max := some (str "1") }⟩

/-- A `resource` property on an owning type outside the generic-carrier
    table — the pair matches no carrier convention. -/
def propResourceOnParameters : Property :=
  ⟨str "Parameters", str "resource", { type := [⟨str "Parameters", []⟩] }⟩

/-- The `Container.item` property of the spec's content-reference scenario. -/
def propContainerItem : Property :=
  ⟨str "Container", str "item",
    { contentReference := some (str "#Container.item.detail"), max := some (str "*") }⟩

/-- A hypothetical `Bundle.entry` with upper cardinality 1. -/
def propBundleEntryMaxOne : Property :=
  ⟨str "Bundle", str "entry", { max := some (str "1") }⟩

/-- A property resolving to `string[]`. -/
def propNoteStrings : Property :=
  ⟨str "Foo", str "note", { type := [⟨str "string", []⟩], max := some (str "*") }⟩

/-- A top-level node with one `Reference<Patient>`-typed property. -/
def fooNode : FhirType :=
  ⟨str "Foo", none, str "Foo",
    [⟨str "Foo", str "subject",
      { type := [⟨str "Reference", [str "http://hl7.org/fhir/StructureDefinition/Patient"]⟩] }⟩],
    false, false⟩

/-- A minimal `Reference` node. -/
def referenceNode : FhirType :=
  ⟨str "Reference", none, str "Reference",
    [⟨str "Reference", str "display", { type := [⟨str "string", []⟩] }⟩],
    false, false⟩

/-- A schema with one parent type and one nested type. -/
def fooBarSchema : List (Str × TypeSchema) :=
  [(str "Foo", { properties := some [(str "a", { type := [⟨str "string", []⟩] })] }),
   (str "FooBar",
     { properties := some [(str "b", { type := [⟨str "string", []⟩] })],
       parentType := some (str "Foo") })]

/-- The spec's `Container` content-reference scenario as a schema. -/
def containerSchema : List (Str × TypeSchema) :=
  [(str "Container",
    { properties := some
        [(str "item",
          { contentReference := some (str "#Container.item.detail"), max := some (str "*") })] })]

/-- A schema with a record-classified type and an aliased duplicate name. -/
def aggregateSchema : List (Str × TypeSchema) :=
  [(str "SimpleQuantity", { properties := some [(str "value", { type := [⟨str "decimal", []⟩] })] }),
   (str "Patient",
     { properties := some
         [(str "id", { type := [⟨str "string", []⟩] }),
          (str "meta", { type := [⟨str "Meta", []⟩] }),
          (str "implicitRules", { type := [⟨str "uri", []⟩] }),
          (str "language", { type := [⟨str "code", []⟩] })] })]

/-- A schema entry with an underscore-prefixed property. -/
def schemaWithUnderscore : TypeSchema :=
  { properties := some
      [(str "a", { type := [⟨str "string", []⟩] }),
       (str "_b", { type := [⟨str "Extension", []⟩] })] }

/-! ## Helper lemmas -/

instance : IsTotal FhirType fun a b => a.outputName ≤ b.outputName :=
  ⟨fun a b => le_total a.outputName b.outputName⟩

instance : IsTrans FhirType fun a b => a.outputName ≤ b.outputName :=
  ⟨fun _ _ _ hab hbc => le_trans hab hbc⟩

instance (p : Property) : Decidable (noBracketEnd p) := by
  unfold noBracketEnd
  infer_instance

instance (ctx : GenCtx) (p : Property) : Decidable (propNoTLeak ctx p) := by
  unfold propNoTLeak
  infer_instance

instance (ctx : GenCtx) (n : FhirType) : Decidable (nodeNoTLeak ctx n) := by
  unfold nodeNoTLeak
  infer_instance

theorem seqWrap_getLast {s : Str} (h : SeqWrap s) : s.getLast? = some ']' := by
  obtain ⟨b, rfl⟩ := h
  rw [List.getLast?_append_of_ne_nil b (by decide)]
  decide

theorem seqWrap_append (b : Str) : SeqWrap (b ++ str "[]") := ⟨b, rfl⟩

theorem seqWrap_paren (b : Str) : SeqWrap (str "(" ++ b ++ str ")[]") := by
  refine ⟨str "(" ++ b ++ str ")", ?_⟩
  have h : str ")[]" = str ")" ++ str "[]" := by decide
  rw [h]
  simp [List.append_assoc]

theorem sortStr_sorted (l : List Str) : List.Sorted (fun a b : Str => a ≤ b) (sortStr l) :=
  List.sorted_insertionSort _ l

theorem sortStr_perm (l : List Str) : List.Perm (sortStr l) l := List.perm_insertionSort _ l

theorem sortStr_eq_of_perm {l₁ l₂ : List Str} (h : List.Perm l₁ l₂) : sortStr l₁ = sortStr l₂ :=
  List.eq_of_perm_of_sorted ((sortStr_perm l₁).trans (h.trans (sortStr_perm l₂).symm))
    (sortStr_sorted l₁) (sortStr_sorted l₂)

theorem sortStr_append_left (a b : List Str) : sortStr (sortStr a ++ b) = sortStr (a ++ b) :=
  sortStr_eq_of_perm ((sortStr_perm a).append_right b)

theorem filter_sortStr (p : Str → Bool) (l : List Str) :
    (sortStr l).filter p = sortStr (l.filter p) :=
  List.eq_of_perm_of_sorted (((sortStr_perm l).filter p).trans (sortStr_perm (l.filter p)).symm)
    ((sortStr_sorted l).filter p) (sortStr_sorted (l.filter p))

theorem dedupKeepFirstAux_eq (l : List Str) : ∀ seen, l.Nodup → (∀ a ∈ l, a ∉ seen) →
    dedupKeepFirstAux seen l = l := by
  induction l with
  | nil => intro seen _ _; rfl
  | cons a rest ih =>
      intro seen hnd hdisj
      unfold dedupKeepFirstAux
      have ha : seen.contains a = false := by
        simpa using hdisj a (List.mem_cons_self a rest)
      rw [ha]
      simp only [Bool.false_eq_true, if_false, List.cons.injEq, true_and]
      refine ih (a :: seen) (List.nodup_cons.mp hnd).2 ?_
      intro b hb
      rw [List.mem_cons]
      rintro (rfl | hbs)
      · exact (List.nodup_cons.mp hnd).1 hb
      · exact hdisj b (List.mem_cons_of_mem a hb) hbs

theorem lastValueFor_cons_ne (t : FhirType) (rest : List FhirType) (n : Str)
    (hne : t.outputName ≠ n) : lastValueFor (t :: rest) n = lastValueFor rest n := by
  unfold lastValueFor
  rw [List.reverse_cons, List.find?_append]
  cases hf : rest.reverse.find? (fun x => x.outputName == n) with
  | some y => simp [hf]
  | none => simp [hf, List.find?_cons, hne]

theorem lastValueFor_head (t : FhirType) (rest : List FhirType)
    (hni : t.outputName ∉ rest.map fun x => x.outputName) :
    lastValueFor (t :: rest) t.outputName = some t := by
  unfold lastValueFor
  rw [List.reverse_cons, List.find?_append]
  have h1 : rest.reverse.find? (fun x => x.outputName == t.outputName) = none := by
    rw [List.find?_eq_none]
    intro x hx
    simp only [beq_iff_eq]
    intro hc
    exact hni (by rw [← hc]; exact List.mem_map_of_mem _ (List.mem_reverse.mp hx))
  rw [h1]
  simp [List.find?_cons]

theorem keyedEntries_eq (tops : List FhirType)
    (h : (tops.map fun t => t.outputName).Nodup) :
    (dedupKeepFirst (tops.map fun t => t.outputName)).filterMap
      (fun n => lastValueFor tops n) = tops := by
  rw [dedupKeepFirst, dedupKeepFirstAux_eq _ [] h (by simp)]
  induction tops with
  | nil => rfl
  | cons t rest ih =>
      rw [List.map_cons] at h
      obtain ⟨hhead, hrest⟩ := List.nodup_cons.mp h
      have hni : t.outputName ∉ rest.map fun x => x.outputName := by simpa using hhead
      rw [List.map_cons]
      simp only [List.filterMap_cons, lastValueFor_head t rest hni]
      congr 1
      rw [List.filterMap_congr
        (fun n hn => lastValueFor_cons_ne t rest n (fun hc => hni (hc ▸ hn)))]
      exact ih hrest

theorem parentTypeEntries_eq (allNodes : List FhirType)
    (h : ((allNodes.filter fun t => t.parentType == none).map fun t => t.outputName).Nodup) :
    parentTypeEntries allNodes = allNodes.filter fun t => t.parentType == none := by
  unfold parentTypeEntries
  exact keyedEntries_eq _ h

theorem sortStr_map_name_filter (tops : List FhirType) :
    sortStr ((tops.filter fun t => t.resource).map fun t => t.outputName) =
      ((sortTypesByName tops).filter fun t => t.resource).map fun t => t.outputName := by
  have hperm : List.Perm
      (sortStr ((tops.filter fun t => t.resource).map fun t => t.outputName))
      (((sortTypesByName tops).filter fun t => t.resource).map fun t => t.outputName) :=
    (sortStr_perm _).trans ((((List.perm_insertionSort _ tops).filter _).map _).symm)
  have hs2 : List.Sorted (fun a b : Str => a ≤ b)
      (((sortTypesByName tops).filter fun t => t.resource).map fun t => t.outputName) := by
    refine List.pairwise_map.mpr ?_
    refine List.Pairwise.filter _ ?_
    exact List.sorted_insertionSort _ tops
  exact List.eq_of_perm_of_sorted hperm (sortStr_sorted _) hs2

/-! ## Claim theorems -/

/-- C1: the claim says a content-reference path or generic-carrier pair that
    matches no fixed convention aborts generation for the type with a
    descriptive error.  The code has no such error path: a content reference
    with an empty fragment path silently emits a field whose type name is
    the empty string, and a `resource` field on an owning type outside the
    carrier table silently falls through to ordinary resolution — both
    produce `some` (a declaration), never an error. -/
theorem c1_unmatched_conventions_emit_silently :
    getTypeScriptProperties emptyCtx propContentRefHash = some [⟨str "bad", ([] : Str)⟩] ∧
    getTypeScriptProperties emptyCtx propResourceOnParameters =
      some [⟨str "resource", str "Parameters"⟩] := by
  decide

/-- C2 counterexample: for `Container.item` with content reference
    `#Container.item.detail` and unbounded cardinality, the resolved type is
    `ContainerItemDetail[]` — every path segment is capitalized and
    concatenated — not `ContainerItem[]` as the claim states. -/
theorem c2_contentref_counterexample :
    getTypeScriptProperties emptyCtx propContainerItem =
      some [⟨str "item", str "ContainerItemDetail[]"⟩] ∧
    str "ContainerItemDetail[]" ≠ str "ContainerItem[]" := by
  decide

/-- C2 amended: a content-reference property with unbounded cardinality
    resolves to exactly one field whose type is the sequence of the full
    path-derived name (every segment capitalized and concatenated), and no
    declaration is fabricated from a content reference at all: the Container
    scenario's generated unit declares only `Container` — neither
    `ContainerItem` nor `ContainerItemDetail` is synthesized as a
    declaration. -/
theorem c2_contentref_amended (ctx : GenCtx) (p : Property) (cr : Str)
    (hnc1 : ¬(p.name = str "resource" ∧
      (p.resourceType = str "BundleEntry" ∨ p.resourceType = str "OperationOutcome" ∨
        p.resourceType = str "Reference")))
    (hnc2 : ¬(p.resourceType = str "Bundle" ∧ p.name = str "entry"))
    (hcr : crTruthy p.definition.contentReference = some cr)
    (hmax : p.definition.max = some (str "*")) :
    getTypeScriptProperties ctx p = some [⟨p.name, crDerivedName cr ++ str "[]"⟩] ∧
    ((runGeneration emptyCtx 2 containerSchema []).1).map
      (fun o => o.interfaceFiles.map fun u => u.decls.map fun d => d.name) =
        some [[str "Container"]] := by
  constructor
  · unfold getTypeScriptProperties
    rw [if_neg hnc1, if_neg hnc2, hcr, hmax]
    simp
  · decide

/-- C2 amended witness at the Container scenario. -/
theorem c2_contentref_amended_witness :
    getTypeScriptProperties emptyCtx propContainerItem =
      some [⟨str "item", crDerivedName (str "#Container.item.detail") ++ str "[]"⟩] :=
  (c2_contentref_amended emptyCtx propContainerItem (str "#Container.item.detail")
    (by decide) (by decide) (by decide) rfl).1

/-- C9 counterexample: when the second execution shares the module-level
    accumulator (`fhirTypes`) left by the first, the outputs are not
    identical — the nested `FooBar` declaration is emitted twice. -/
theorem c9_shared_state_counterexample :
    (runGeneration emptyCtx 2 fooBarSchema ((runGeneration emptyCtx 2 fooBarSchema []).2)).1 ≠
      (runGeneration emptyCtx 2 fooBarSchema []).1 := by
  decide

/-- C9 amended: a run started from the empty accumulator state is a function
    of the schema index (and value-set corpus) alone — two fresh executions
    therefore produce identical output sets. -/
theorem c9_fresh_run_deterministic (ctx : GenCtx) (fuel : Nat)
    (schema : List (Str × TypeSchema)) :
    runGeneration ctx fuel schema [] = (specOutputs ctx fuel schema, buildAllTypes schema) := by
  unfold runGeneration specOutputs
  rw [List.nil_append]
  dsimp only
  split <;> rfl

/-- C10: underscore-prefixed properties are excluded when a type node is
    built — the node equals the one built from the schema entry with those
    properties removed (so they contribute neither fields, nor the
    record/extended-record marker check, nor imports), and no built property
    has an underscore-initial name. -/
theorem c10_underscore_excluded (rt : Str) (d : TypeSchema) :
    buildType rt d = buildType rt (stripUnderscoreProps d) ∧
    ∀ ft, buildType rt d = some ft → ∀ p ∈ ft.properties, p.name.head? ≠ some '_' := by
  constructor
  · unfold buildType stripUnderscoreProps
    cases hp : d.properties with
    | none => rfl
    | some props => simp [List.filter_filter]
  · intro ft hft p hp
    unfold buildType at hft
    cases hq : d.properties with
    | none => rw [hq] at hft; exact absurd hft (by simp)
    | some props =>
        rw [hq] at hft
        simp only [Option.some.injEq] at hft
        rw [← hft] at hp
        simp only [List.mem_map] at hp
        obtain ⟨e, he, rfl⟩ := hp
        have := List.of_mem_filter he
        simpa using this

/-- C10 witness: at a schema entry with properties `a` and `_b`, the built
    node ignores `_b`, and the property `a` of the built node has no
    underscore-initial name. -/
theorem c10_underscore_excluded_witness :
    buildType (str "X") schemaWithUnderscore =
      buildType (str "X") (stripUnderscoreProps schemaWithUnderscore) ∧
    (str "a").head? ≠ some '_' :=
  ⟨(c10_underscore_excluded (str "X") schemaWithUnderscore).1,
   (c10_underscore_excluded (str "X") schemaWithUnderscore).2
     ⟨str "X", none, str "X",
       [⟨str "X", str "a", { type := [⟨str "string", []⟩] }⟩], false, false⟩
     (by decide) ⟨str "X", str "a", { type := [⟨str "string", []⟩] }⟩ (by decide)⟩

/-- C3 counterexample: the claim quantifies over every required-strength
    enumeration binding, but the resource-types URL is exempted by the code:
    with a corpus in which that enumeration flattens to `[a, b, c]`, the
    resolved type is `ResourceType`, not the literal union of those codes. -/
theorem c3_enum_counterexample :
    getValueSetValuesF corpusResourceTypes 3
        (str "http://hl7.org/fhir/ValueSet/resource-types|4.0.1") =
      [str "a", str "b", str "c"] ∧
    getTypeScriptTypeForProperty ⟨corpusResourceTypes, 3⟩ propKindResourceTypes
        ⟨str "code", []⟩ = str "ResourceType" ∧
    str "ResourceType" ≠ q ++ List.intercalate qSep [str "a", str "b", str "c"] ++ q := by
  decide

/-- C3 amended: for a string-flavored property with a required-strength
    binding whose URL is none of the three exempted URLs and flattens to a
    non-empty code sequence, the resolved type is the quoted literal union
    of exactly those codes in flattening order — duplicates preserved, since
    the flattened sequence is joined verbatim. -/
theorem c3_enum_literal_union (ctx : GenCtx) (p : Property) (td : EDType) (u : Str)
    (cs : List Str)
    (hcode : td.code ∈ stringFlavoredCodes)
    (hbind : p.definition.binding = some ⟨some u, some (str "required")⟩)
    (hu : u ≠ [])
    (h1 : u ≠ str "http://hl7.org/fhir/ValueSet/resource-types|4.0.1")
    (h2 : u ≠ str "http://hl7.org/fhir/ValueSet/all-types|4.0.1")
    (h3 : u ≠ str "http://hl7.org/fhir/ValueSet/defined-types|4.0.1")
    (hvals : getValueSetValues ctx u = cs)
    (hne : cs ≠ [])
    (hmax : p.definition.max ≠ some (str "*")) :
    getTypeScriptTypeForProperty ctx p td = q ++ List.intercalate qSep cs ++ q := by
  unfold getTypeScriptTypeForProperty baseTypeForProperty stringBaseType
  rw [hbind, if_pos hcode, if_neg hmax]
  dsimp only
  rw [if_pos ⟨hu, rfl⟩, if_neg h1, if_pos ⟨h2, h3⟩, hvals]
  rw [if_pos hne]

/-- C3 amended witness: an overlapping composed enumeration flattens to
    `[a, b, a]` and yields the literal union with the duplicate preserved in
    order. -/
theorem c3_enum_literal_union_witness :
    getValueSetValues ⟨corpusOverlap, 3⟩ (str "http://example.org/vs/overlap") =
      [str "a", str "b", str "a"] ∧
    getTypeScriptTypeForProperty ⟨corpusOverlap, 3⟩ propKindOverlap ⟨str "code", []⟩ =
      q ++ List.intercalate qSep [str "a", str "b", str "a"] ++ q :=
  ⟨by decide,
   c3_enum_literal_union ⟨corpusOverlap, 3⟩ propKindOverlap ⟨str "code", []⟩
     (str "http://example.org/vs/overlap") [str "a", str "b", str "a"]
     (by decide) rfl (by decide) (by decide) (by decide) (by decide) (by decide)
     (by decide) (by decide)⟩

/-- C8 counterexample: the claim quantifies over every required binding whose
    URL is absent from the corpus, but the resource-types URL is
    special-cased before the corpus is consulted: with an empty corpus the
    resolved type is `ResourceType`, not the unconstrained scalar string. -/
theorem c8_fallback_counterexample :
    emptyCtx.valueSets (str "http://hl7.org/fhir/ValueSet/resource-types") = none ∧
    getTypeScriptProperties emptyCtx propKindResourceTypes =
      some [⟨str "kind", str "ResourceType"⟩] ∧
    str "ResourceType" ≠ str "string" :=
  ⟨rfl, by decide, by decide⟩

/-- C8 amended: for a string-flavored required binding whose URL is not the
    resource-types URL, an unresolvable enumeration (unknown URL, or a known
    URL flattening to zero codes) degrades the field type to the scalar
    `string`, and resolution still returns a declaration (`some`), so the
    run does not fail. -/
theorem c8_fallback_degrades (ctx : GenCtx) (p : Property) (td : EDType) (u : Str)
    (hnc1 : ¬(p.name = str "resource" ∧
      (p.resourceType = str "BundleEntry" ∨ p.resourceType = str "OperationOutcome" ∨
        p.resourceType = str "Reference")))
    (hnc2 : ¬(p.resourceType = str "Bundle" ∧ p.name = str "entry"))
    (hcr : crTruthy p.definition.contentReference = none)
    (hsuf : (str "[x]").isSuffixOf p.name = false)
    (htype : p.definition.type = [td])
    (hcode : td.code ∈ stringFlavoredCodes)
    (hbind : p.definition.binding = some ⟨some u, some (str "required")⟩)
    (hu : u ≠ [])
    (h1 : u ≠ str "http://hl7.org/fhir/ValueSet/resource-types|4.0.1")
    (hvals : getValueSetValues ctx u = [])
    (hmax : p.definition.max ≠ some (str "*")) :
    getTypeScriptProperties ctx p = some [⟨p.name, str "string"⟩] := by
  have hbase : getTypeScriptTypeForProperty ctx p td = str "string" := by
    unfold getTypeScriptTypeForProperty baseTypeForProperty stringBaseType
    rw [hbind, if_pos hcode, if_neg hmax]
    dsimp only
    rw [if_pos ⟨hu, rfl⟩, if_neg h1]
    by_cases ha : u = str "http://hl7.org/fhir/ValueSet/all-types|4.0.1"
    · rw [if_neg (fun hc => hc.1 ha)]
    · by_cases hd : u = str "http://hl7.org/fhir/ValueSet/defined-types|4.0.1"
      · rw [if_neg (fun hc => hc.2 hd)]
      · rw [if_pos ⟨ha, hd⟩, hvals]
        simp
  unfold getTypeScriptProperties
  rw [if_neg hnc1, if_neg hnc2, hcr]
  dsimp only
  rw [hsuf]
  simp only [Bool.false_eq_true, if_false]
  rw [htype]
  dsimp only [List.head?]
  rw [hbase]

/-- C8 amended witness: an unknown URL under an empty corpus degrades a
    required-bound code field to `string` without failing. -/
theorem c8_fallback_degrades_witness :
    getTypeScriptProperties emptyCtx
      ⟨str "Foo", str "status",
        { type := [⟨str "code", []⟩], max := some (str "1"),
          binding := some
            { valueSet := some (str "http://example.org/vs/unknown"),
              strength := some (str "required") } }⟩ =
      some [⟨str "status", str "string"⟩] :=
  c8_fallback_degrades emptyCtx
    ⟨str "Foo", str "status",
      { type := [⟨str "code", []⟩], max := some (str "1"),
        binding := some
          { valueSet := some (str "http://example.org/vs/unknown"),
            strength := some (str "required") } }⟩
    ⟨str "code", []⟩ (str "http://example.org/vs/unknown")
    (by decide) (by decide) (by decide) (by decide) rfl (by decide) rfl (by decide)
    (by decide) rfl (by decide)

theorem quoted_getLast (mid : Str) : (q ++ mid ++ q).getLast? = some qChar := by
  rw [List.getLast?_append_of_ne_nil _ (by decide)]
  rfl

theorem stringBaseType_getLast_ne (ctx : GenCtx) (p : Property) :
    (stringBaseType ctx p).getLast? ≠ some ']' := by
  unfold stringBaseType
  split
  · decide
  split
  · decide
  split
  · split
    · decide
    split
    · dsimp only
      split
      · rw [quoted_getLast]
        decide
      · decide
    · decide
  · decide

theorem baseType_getLast_ne (ctx : GenCtx) (p : Property) (td : EDType)
    (h2 : (p.resourceType ++ capitalize p.name).getLast? ≠ some ']')
    (h3 : td.code.getLast? ≠ some ']') :
    (baseTypeForProperty ctx p td).getLast? ≠ some ']' := by
  unfold baseTypeForProperty
  split
  · exact stringBaseType_getLast_ne ctx p
  split
  · decide
  split
  · decide
  split
  · decide
  split
  · exact h2
  split
  · split
    · rw [List.getLast?_append_of_ne_nil _ (by decide)]
      decide
    · decide
  · exact h3

theorem seqWrap_iff_max (ctx : GenCtx) (p : Property) (td : EDType)
    (h2 : (p.resourceType ++ capitalize p.name).getLast? ≠ some ']')
    (h3 : td.code.getLast? ≠ some ']') :
    SeqWrap (getTypeScriptTypeForProperty ctx p td) ↔ p.definition.max = some (str "*") := by
  unfold getTypeScriptTypeForProperty
  by_cases hm : p.definition.max = some (str "*")
  · rw [if_pos hm]
    constructor
    · intro _; exact hm
    · intro _
      split
      · exact seqWrap_paren _
      · exact seqWrap_append _
  · rw [if_neg hm]
    constructor
    · intro hw
      exact absurd (seqWrap_getLast hw) (baseType_getLast_ne ctx p td h2 h3)
    · intro hc; exact absurd hc hm

/-- C7 counterexample: the claim's "sequence wrapper iff unbounded upper
    cardinality" fails on the hardcoded generic-carrier pair `Bundle.entry`:
    with upper cardinality 1 the resolved type is still the sequence
    `BundleEntry<T>[]`. -/
theorem c7_cardinality_counterexample :
    getTypeScriptProperties emptyCtx propBundleEntryMaxOne =
      some [⟨str "entry", str "BundleEntry<T>[]"⟩] ∧
    propBundleEntryMaxOne.definition.max = some (str "1") ∧
    SeqWrap (str "BundleEntry<T>[]") :=
  ⟨by decide, by decide, ⟨str "BundleEntry<T>", by decide⟩⟩

/-- C7 amended: for every property that is not one of the fixed
    generic-carrier (owning type, field) pairs, and whose derivable base
    names do not already end in a bracket, every resolved field type is a
    sequence wrapper iff the property's upper cardinality is `*`. -/
theorem c7_cardinality_amended (ctx : GenCtx) (p : Property) (fields : List TSProp)
    (hnc1 : ¬(p.name = str "resource" ∧
      (p.resourceType = str "BundleEntry" ∨ p.resourceType = str "OperationOutcome" ∨
        p.resourceType = str "Reference")))
    (hnc2 : ¬(p.resourceType = str "Bundle" ∧ p.name = str "entry"))
    (hwf : noBracketEnd p)
    (hres : getTypeScriptProperties ctx p = some fields) :
    ∀ f ∈ fields, (SeqWrap f.typeName ↔ p.definition.max = some (str "*")) := by
  obtain ⟨hw1, hw2, hw3⟩ := hwf
  unfold getTypeScriptProperties at hres
  rw [if_neg hnc1, if_neg hnc2] at hres
  cases hcr : crTruthy p.definition.contentReference with
  | some cr =>
      rw [hcr] at hres
      simp only [Option.some.injEq] at hres
      subst hres
      intro f hf
      rw [List.mem_singleton] at hf
      subst hf
      dsimp only
      by_cases hm : p.definition.max = some (str "*")
      · rw [if_pos hm]
        constructor
        · intro _; exact hm
        · intro _; exact seqWrap_append _
      · rw [if_neg hm]
        constructor
        · intro hw
          exact absurd (seqWrap_getLast hw) (hw1 cr (by simp [hcr]))
        · intro hc; exact absurd hc hm
  | none =>
      rw [hcr] at hres
      by_cases hsuf : (str "[x]").isSuffixOf p.name = true
      · rw [if_pos hsuf] at hres
        simp only [Option.some.injEq] at hres
        subst hres
        intro f hf
        rw [List.mem_map] at hf
        obtain ⟨pt, hpt, rfl⟩ := hf
        exact seqWrap_iff_max ctx p pt hw2 (hw3 pt hpt)
      · rw [if_neg hsuf] at hres
        cases ht : p.definition.type.head? with
        | none => rw [ht] at hres; exact absurd hres (by simp)
        | some td =>
            rw [ht] at hres
            simp only [Option.some.injEq] at hres
            subst hres
            have htd : td ∈ p.definition.type := by
              cases hty : p.definition.type with
              | nil => rw [hty] at ht; exact absurd ht (by simp)
              | cons a l =>
                  rw [hty] at ht
                  simp only [List.head?_cons, Option.some.injEq] at ht
                  cases ht
                  exact List.mem_cons_self td l
            intro f hf
            rw [List.mem_singleton] at hf
            subst hf
            exact seqWrap_iff_max ctx p td hw2 (hw3 td htd)

/-- C7 amended witness: an ordinary property with `max = *` resolves to the
    sequence wrapper `string[]`. -/
theorem c7_cardinality_amended_witness : SeqWrap (str "string[]") :=
  ((c7_cardinality_amended emptyCtx propNoteStrings [⟨str "note", str "string[]"⟩]
      (by decide) (by decide) (by decide) (by decide))
    ⟨str "note", str "string[]"⟩ (by decide)).mpr (by decide)

theorem mapM_option_mem_exists {α β : Type} (f : α → Option β) :
    ∀ (l : List α) (ys : List β), l.mapM f = some ys → ∀ y ∈ ys, ∃ x ∈ l, f x = some y := by
  intro l
  induction l with
  | nil =>
      intro ys h y hy
      simp only [List.mapM_nil, Option.pure_def, Option.some.injEq] at h
      subst h
      simp at hy
  | cons a rest ih =>
      intro ys h y hy
      rw [List.mapM_cons] at h
      cases hfa : f a with
      | none => rw [hfa] at h; simp at h
      | some b =>
          rw [hfa] at h
          cases hrest : rest.mapM f with
          | none => rw [hrest] at h; simp at h
          | some bs =>
              rw [hrest] at h
              simp only [Option.pure_def, Option.bind_eq_bind, Option.some_bind,
                Option.some.injEq] at h
              subst h
              rcases List.mem_cons.mp hy with rfl | hybs
              · exact ⟨a, List.mem_cons_self a rest, hfa⟩
              · obtain ⟨x, hx, hfx⟩ := ih bs hrest y hybs
                exact ⟨x, List.mem_cons_of_mem a hx, hfx⟩

theorem prop_clean_no_T (ctx : GenCtx) (p : Property) (fs : List TSProp)
    (hwf : propNoTLeak ctx p) (hres : getTypeScriptProperties ctx p = some fs) :
    ∀ f ∈ fs, str "T" ∉ cleanReferencedType f.typeName := by
  rcases hwf with hc1 | hc2 | hgen
  · unfold getTypeScriptProperties at hres
    rw [if_pos hc1] at hres
    simp only [Option.some.injEq] at hres
    subst hres
    intro f hf
    rw [List.mem_singleton] at hf
    subst hf
    decide
  · unfold getTypeScriptProperties at hres
    have hne : ¬(p.name = str "resource" ∧
        (p.resourceType = str "BundleEntry" ∨ p.resourceType = str "OperationOutcome" ∨
          p.resourceType = str "Reference")) := by
      rintro ⟨hn, _⟩
      rw [hc2.2] at hn
      exact absurd hn (by decide)
    rw [if_neg hne, if_pos hc2] at hres
    simp only [Option.some.injEq] at hres
    subst hres
    intro f hf
    rw [List.mem_singleton] at hf
    subst hf
    decide
  · intro f hf
    exact hgen fs (by simp [hres]) f hf

theorem buildImports_ref_no_T (ctx : GenCtx) (nodes : List FhirType) :
    ∀ fuel t inc ref, nodeNoTLeak ctx t → (∀ n ∈ nodes, nodeNoTLeak ctx n) →
      buildImportsF ctx nodes fuel t = some (inc, ref) → str "T" ∉ ref := by
  intro fuel
  induction fuel with
  | zero =>
      intro t inc ref _ _ h
      unfold buildImportsF at h
      simp only [Option.some.injEq, Prod.mk.injEq] at h
      rw [← h.2]
      simp
  | succ n ih =>
      intro t inc ref ht hn h
      unfold buildImportsF at h
      cases hm : t.properties.mapM (fun p => getTypeScriptProperties ctx p) with
      | none => rw [hm] at h; exact absurd h (by simp)
      | some fieldLists =>
          rw [hm] at h
          cases hs : (childrenOf nodes t.outputName).mapM
              (fun c => buildImportsF ctx nodes n c) with
          | none => rw [hs] at h; exact absurd h (by simp)
          | some subResults =>
              rw [hs] at h
              simp only [Option.some.injEq, Prod.mk.injEq] at h
              rw [← h.2]
              intro hmem
              simp only [List.mem_append] at hmem
              rcases hmem with (hown | hsub) | hextra
              · rw [List.mem_flatMap] at hown
                obtain ⟨f, hfmem, hfT⟩ := hown
                rw [List.mem_flatten] at hfmem
                obtain ⟨fs, hfs, hf⟩ := hfmem
                obtain ⟨pp, hpp, hppeq⟩ :=
                  mapM_option_mem_exists (fun p => getTypeScriptProperties ctx p)
                    t.properties fieldLists hm fs hfs
                exact prop_clean_no_T ctx pp fs (ht pp hpp) hppeq f hf hfT
              · rw [List.mem_flatten] at hsub
                obtain ⟨r2, hr2, hmem2⟩ := hsub
                rw [List.mem_map] at hr2
                obtain ⟨pr, hpr, rfl⟩ := hr2
                obtain ⟨c, hc, hceq⟩ :=
                  mapM_option_mem_exists (fun c => buildImportsF ctx nodes n c)
                    (childrenOf nodes t.outputName) subResults hs pr hpr
                have hcn : c ∈ nodes := List.mem_of_mem_filter hc
                exact ih c pr.1 pr.2 (hn c hcn) hn (by rw [hceq]) hmem2
              · by_cases hrn : t.outputName = str "Reference"
                · rw [if_pos hrn] at hextra
                  rw [List.mem_singleton] at hextra
                  exact absurd hextra (by decide)
                · rw [if_neg hrn] at hextra
                  exact absurd hextra (by simp)

/-- C6: for every emission unit (any node, any sub-type nesting, any fuel),
    the computed import list excludes every name defined inside the unit
    (`inc` is exactly the collected set of the unit's own declarations),
    contains no type-parameter reference `T` (given the schema itself does
    not use `T` as a type name), and is sorted. -/
theorem c6_import_minimality (ctx : GenCtx) (nodes : List FhirType) (fuel : Nat)
    (t : FhirType) (inc ref : List Str)
    (hwf : nodeNoTLeak ctx t ∧ ∀ n ∈ nodes, nodeNoTLeak ctx n)
    (h : buildImportsF ctx nodes fuel t = some (inc, ref)) :
    unitImports ctx nodes fuel t =
      some ((sortStr ref.dedup).filter fun n => !(inc.contains n)) ∧
    (∀ x ∈ (sortStr ref.dedup).filter fun n => !(inc.contains n), x ∉ inc) ∧
    str "T" ∉ (sortStr ref.dedup).filter (fun n => !(inc.contains n)) ∧
    List.Sorted (fun a b : Str => a ≤ b)
      ((sortStr ref.dedup).filter fun n => !(inc.contains n)) := by
  refine ⟨?_, ?_, ?_, ?_⟩
  · unfold unitImports
    rw [h]
  · intro x hx
    have := (List.mem_filter.mp hx).2
    simpa using this
  · intro hT
    have hT2 : str "T" ∈ sortStr ref.dedup := (List.mem_filter.mp hT).1
    simp only [sortStr, List.mem_insertionSort, List.mem_dedup] at hT2
    exact buildImports_ref_no_T ctx nodes fuel t inc ref hwf.1 hwf.2 h hT2
  · exact (sortStr_sorted _).filter _

/-- C6 witness: the `Foo` unit with a `Reference<Patient>` field imports
    `[Patient, Reference]` — disjoint from its own declaration set, free of
    `T`, and sorted. -/
theorem c6_import_minimality_witness :
    unitImports emptyCtx [] 1 fooNode = some [str "Patient", str "Reference"] ∧
    str "Patient" ∉ ([str "Foo"] : List Str) ∧
    str "T" ∉ ([str "Patient", str "Reference"] : List Str) ∧
    List.Sorted (fun a b : Str => a ≤ b) ([str "Patient", str "Reference"] : List Str) := by
  have h := c6_import_minimality emptyCtx [] 1 fooNode [str "Foo"]
    [str "Reference", str "Patient"] ⟨by decide, by decide⟩ (by decide)
  have he : ((sortStr ([str "Reference", str "Patient"] : List Str).dedup).filter
      fun n => !(([str "Foo"] : List Str).contains n)) = [str "Patient", str "Reference"] := by
    decide
  refine ⟨?_, ?_, ?_, ?_⟩
  · rw [← he]; exact h.1
  · exact h.2.1 (str "Patient") (by rw [he]; decide)
  · rw [← he]; exact h.2.2.1
  · rw [← he]; exact h.2.2.2

/-- C5 counterexample: the `Foo` unit references the generic carrier
    (`Reference<Patient>`), yet its import list is `[Patient, Reference]` —
    `Resource` is not imported, contradicting the claim that every unit
    referencing a generic carrier implicitly imports the union type. -/
theorem c5_generic_carrier_counterexample :
    renderDeclsF emptyCtx [] 1 fooNode =
      some [⟨str "Foo", [], [⟨str "subject", str "Reference<Patient>"⟩]⟩] ∧
    unitImports emptyCtx [] 1 fooNode = some [str "Patient", str "Reference"] ∧
    str "Resource" ∉ ([str "Patient", str "Reference"] : List Str) := by
  decide

/-- C5 amended: the generic reference-carrier's own unit is emitted with the
    type-parameter clause and a trailing extra optional `resource` field of
    type `T`, and that unit's import list always contains `Resource`
    implicitly (whenever `Resource` is not among the unit's own declaration
    names); other units referencing the carrier import only the carrier and
    its target names. -/
theorem c5_generic_carrier_amended (ctx : GenCtx) (nodes : List FhirType) (fuel : Nat)
    (t : FhirType) (ds : List TSDecl) (inc ref : List Str)
    (hname : t.outputName = str "Reference")
    (hprops : t.properties ≠ [])
    (hrender : renderDeclsF ctx nodes (fuel + 1) t = some ds)
    (himp : buildImportsF ctx nodes (fuel + 1) t = some (inc, ref))
    (hninc : str "Resource" ∉ inc) :
    (∃ d rest, ds = d :: rest ∧
      d.genericClause = str "<T extends Resource = Resource>" ∧
      d.fields.getLast? = some ⟨str "resource", str "T"⟩) ∧
    unitImports ctx nodes (fuel + 1) t =
      some ((sortStr ref.dedup).filter fun n => !(inc.contains n)) ∧
    str "Resource" ∈ (sortStr ref.dedup).filter fun n => !(inc.contains n) := by
  refine ⟨?_, ?_, ?_⟩
  · unfold renderDeclsF at hrender
    rw [if_neg hprops] at hrender
    cases hm : t.properties.mapM (fun p => getTypeScriptProperties ctx p) with
    | none => rw [hm] at hrender; exact absurd hrender (by simp)
    | some fieldLists =>
        rw [hm] at hrender
        cases hsub : (sortTypesByName (childrenOf nodes t.outputName)).mapM
            (fun c => renderDeclsF ctx nodes fuel c) with
        | none => rw [hsub] at hrender; exact absurd hrender (by simp)
        | some subDecls =>
            rw [hsub] at hrender
            simp only [Option.some.injEq] at hrender
            refine ⟨_, subDecls.flatten, hrender.symm, ?_, ?_⟩
            · dsimp only
              rw [hname]
              decide
            · dsimp only
              rw [hname, if_pos rfl]
              exact List.getLast?_concat _
  · unfold unitImports
    rw [himp]
  · have hrefmem : str "Resource" ∈ ref := by
      unfold buildImportsF at himp
      cases hm : t.properties.mapM (fun p => getTypeScriptProperties ctx p) with
      | none => rw [hm] at himp; exact absurd himp (by simp)
      | some fieldLists =>
          rw [hm] at himp
          cases hs : (childrenOf nodes t.outputName).mapM
              (fun c => buildImportsF ctx nodes fuel c) with
          | none => rw [hs] at himp; exact absurd himp (by simp)
          | some subResults =>
              rw [hs] at himp
              simp only [Option.some.injEq, Prod.mk.injEq] at himp
              rw [← himp.2, hname, if_pos rfl]
              exact List.mem_append_right _ (List.mem_singleton_self _)
    rw [List.mem_filter]
    constructor
    · simp only [sortStr, List.mem_insertionSort, List.mem_dedup]
      exact hrefmem
    · simpa using hninc

/-- C5 amended witness at a minimal `Reference` unit: its import list is
    exactly `[Resource]`. -/
theorem c5_generic_carrier_amended_witness :
    unitImports emptyCtx [] 1 referenceNode =
      some ((sortStr ([str "Resource"] : List Str).dedup).filter
        fun n => !(([str "Reference"] : List Str).contains n)) ∧
    str "Resource" ∈ (sortStr ([str "Resource"] : List Str).dedup).filter
      fun n => !(([str "Reference"] : List Str).contains n) := by
  have h := c5_generic_carrier_amended emptyCtx [] 0 referenceNode
    [⟨str "Reference", str "<T extends Resource = Resource>",
      [⟨str "display", str "string"⟩, ⟨str "resource", str "T"⟩]⟩]
    [str "Reference"] [str "Resource"]
    (by decide) (by decide) (by decide) (by decide) (by decide)
  exact ⟨h.2.1, h.2.2⟩

/-- C4: for every schema index whose top-level output names are distinct
    (they are object keys in the source), the `Resource` union disjunct list
    equals the sorted record-classified top-level names, and the index
    export list equals the sorted set of all top-level names plus the two
    synthesized names `Resource` and `ResourceType`, minus the two aliased
    duplicates `MoneyQuantity` and `SimpleQuantity`. -/
theorem c4_aggregate_lists (schema : List (Str × TypeSchema))
    (hnodup : ((topLevelTypes schema).map fun t => t.outputName).Nodup) :
    mainIndexExports (buildAllTypes schema) = specIndexExports schema ∧
    mainResourceUnion (buildAllTypes schema) = specResourceUnion schema := by
  have htop : parentTypeEntries (buildAllTypes schema) = topLevelTypes schema := by
    unfold topLevelTypes at hnodup ⊢
    exact parentTypeEntries_eq _ hnodup
  constructor
  · unfold mainIndexExports specIndexExports writeIndexExports
    rw [htop, sortStr_append_left, filter_sortStr]
  · unfold mainResourceUnion specResourceUnion
    rw [htop]
    exact sortStr_map_name_filter _

/-- C4 witness: on a schema with a record-classified `Patient` and the
    aliased `SimpleQuantity`, the export list is
    `[Patient, Resource, ResourceType]` (the alias excluded) and the union
    is `[Patient]`. -/
theorem c4_aggregate_lists_witness :
    mainIndexExports (buildAllTypes aggregateSchema) = specIndexExports aggregateSchema ∧
    mainResourceUnion (buildAllTypes aggregateSchema) = specResourceUnion aggregateSchema ∧
    mainIndexExports (buildAllTypes aggregateSchema) =
      [str "Patient", str "Resource", str "ResourceType"] ∧
    mainResourceUnion (buildAllTypes aggregateSchema) = [str "Patient"] := by
  have h := c4_aggregate_lists aggregateSchema (by decide)
  exact ⟨h.1, h.2, by decide, by decide⟩
